import Mathlib

/-!
Verification of the audio pipeline of a browser text-to-speech front end.

The development shallowly embeds the repository's audio utilities:
byte buffers are `List Nat` (each entry an 8-bit value), 16-bit PCM
samples are `Int`, normalized audio samples are `ℚ` (every value the
code produces, `int16 / 32768.0`, is exact in binary floating point,
so rationals are a faithful model), and fallible operations return
`Option` / `Except`.
-/

namespace TTS

/-! ## WAV encoder (`createWavBlob` in the source)

The source builds a 44-byte header with a `DataView`: `writeString`
stores the code units of a literal via `setUint8` (which truncates to
8 bits), `setUint32 (…, true)` / `setUint16 (…, true)` store values
little-endian, truncated to 32/16 bits. -/

/-- Model of `writeString`: the UTF-16 code units of the literal, each
truncated to a byte by `setUint8`. -/
def writeStringBytes (s : String) : List Nat :=
  s.data.map (fun c => c.toNat % 256)

/-- Little-endian bytes stored by `DataView.setUint16 (off, v, true)`. -/
def u16le (v : Nat) : List Nat := [v % 256, v / 256 % 256]

/-- Little-endian bytes stored by `DataView.setUint32 (off, v, true)`. -/
def u32le (v : Nat) : List Nat :=
  [v % 256, v / 256 % 256, v / 65536 % 256, v / 16777216 % 256]

/-- The 44-byte header written by `createWavBlob` for a payload of
`dataSize` bytes, field for field in the order the source writes them
(offsets 0, 4, 8, 12, 16, 20, 22, 24, 28, 32, 34, 36, 40). -/
def wavHeader (dataSize : Nat) : List Nat :=
  let sampleRate := 24000
  let numChannels := 1
  let bitsPerSample := 16
  writeStringBytes "RIFF" ++
  u32le (36 + dataSize) ++
  writeStringBytes "WAVE" ++
  writeStringBytes "fmt " ++
  u32le 16 ++
  u16le 1 ++
  u16le numChannels ++
  u32le sampleRate ++
  u32le (sampleRate * numChannels * (bitsPerSample / 8)) ++
  u16le (numChannels * (bitsPerSample / 8)) ++
  u16le bitsPerSample ++
  writeStringBytes "data" ++
  u32le dataSize

/-- Model of `createWavBlob`: the blob `new Blob([view, pcmData])`
concatenates the 44-byte header with the untouched PCM payload. -/
def createWavBlob (pcmData : List Nat) : List Nat :=
  wavHeader pcmData.length ++ pcmData

/-- Read two bytes at `off` as a little-endian unsigned 16-bit value. -/
def readU16le (bs : List Nat) (off : Nat) : Nat :=
  bs.getD off 0 + bs.getD (off + 1) 0 * 256

/-- Read four bytes at `off` as a little-endian unsigned 32-bit value. -/
def readU32le (bs : List Nat) (off : Nat) : Nat :=
  bs.getD off 0 + bs.getD (off + 1) 0 * 256 +
    bs.getD (off + 2) 0 * 65536 + bs.getD (off + 3) 0 * 16777216

theorem wavHeader_length (n : Nat) : (wavHeader n).length = 44 := rfl

theorem ws_riff : writeStringBytes "RIFF" = [82, 73, 70, 70] := by decide

theorem ws_wave : writeStringBytes "WAVE" = [87, 65, 86, 69] := by decide

theorem ws_fmt : writeStringBytes "fmt " = [102, 109, 116, 32] := by decide

theorem ws_data : writeStringBytes "data" = [100, 97, 116, 97] := by decide

/-- The header written for a payload of `n` bytes, with every literal and
every constant field evaluated to its bytes. -/
theorem wavHeader_eq (n : Nat) : wavHeader n =
    [82, 73, 70, 70] ++
    [(36 + n) % 256, (36 + n) / 256 % 256, (36 + n) / 65536 % 256,
      (36 + n) / 16777216 % 256] ++
    [87, 65, 86, 69] ++ [102, 109, 116, 32] ++ [16, 0, 0, 0] ++ [1, 0] ++ [1, 0] ++
    [192, 93, 0, 0] ++ [128, 187, 0, 0] ++ [2, 0] ++ [16, 0] ++ [100, 97, 116, 97] ++
    [n % 256, n / 256 % 256, n / 65536 % 256, n / 16777216 % 256] := by
  rw [wavHeader, ws_riff, ws_wave, ws_fmt, ws_data]
  norm_num [u32le, u16le]

/-- C1: the WAV encoder emits `44 + length b` bytes and the bytes from
offset 44 onward are exactly the input PCM buffer, untouched. -/
theorem wav_payload_roundtrip (b : List Nat) :
    (createWavBlob b).length = 44 + b.length ∧ (createWavBlob b).drop 44 = b := by
  constructor
  · rw [createWavBlob, List.length_append, wavHeader_length]
  · rw [createWavBlob, ← wavHeader_length b.length, List.drop_left]

/-- C2: the 44-byte header carries exactly the canonical RIFF/WAVE field
values for a payload of `pcm.length` bytes: the four chunk tags, the
little-endian RIFF size `36 + dataSize`, PCM sub-chunk size 16, format
tag 1, 1 channel, sample rate 24000, byte rate 48000, block align 2,
16 bits per sample, and the little-endian data size. -/
theorem wav_header_fields (pcm : List Nat) (h : 36 + pcm.length < 4294967296) :
    (createWavBlob pcm).take 4 = [82, 73, 70, 70] ∧
    readU32le (createWavBlob pcm) 4 = 36 + pcm.length ∧
    ((createWavBlob pcm).drop 8).take 4 = [87, 65, 86, 69] ∧
    ((createWavBlob pcm).drop 12).take 4 = [102, 109, 116, 32] ∧
    readU32le (createWavBlob pcm) 16 = 16 ∧
    readU16le (createWavBlob pcm) 20 = 1 ∧
    readU16le (createWavBlob pcm) 22 = 1 ∧
    readU32le (createWavBlob pcm) 24 = 24000 ∧
    readU32le (createWavBlob pcm) 28 = 48000 ∧
    readU16le (createWavBlob pcm) 32 = 2 ∧
    readU16le (createWavBlob pcm) 34 = 16 ∧
    ((createWavBlob pcm).drop 36).take 4 = [100, 97, 116, 97] ∧
    readU32le (createWavBlob pcm) 40 = pcm.length := by
  rw [createWavBlob, wavHeader_eq]
  refine ⟨by simp, ?_, by simp, by simp,
    by simp only [readU32le, List.cons_append, List.nil_append,
      List.getD_cons_succ, List.getD_cons_zero],
    by simp only [readU16le, List.cons_append, List.nil_append,
      List.getD_cons_succ, List.getD_cons_zero],
    by simp only [readU16le, List.cons_append, List.nil_append,
      List.getD_cons_succ, List.getD_cons_zero],
    by simp only [readU32le, List.cons_append, List.nil_append,
      List.getD_cons_succ, List.getD_cons_zero],
    by simp only [readU32le, List.cons_append, List.nil_append,
      List.getD_cons_succ, List.getD_cons_zero],
    by simp only [readU16le, List.cons_append, List.nil_append,
      List.getD_cons_succ, List.getD_cons_zero],
    by simp only [readU16le, List.cons_append, List.nil_append,
      List.getD_cons_succ, List.getD_cons_zero],
    by simp, ?_⟩
  · simp only [readU32le, List.cons_append, List.nil_append,
      List.getD_cons_succ, List.getD_cons_zero]
    omega
  · simp only [readU32le, List.cons_append, List.nil_append,
      List.getD_cons_succ, List.getD_cons_zero]
    omega

/-- Witness for C2 at the ten-byte payload from the spec's header test:
the RIFF size field reads back as 46. -/
theorem wav_header_fields_witness :
    (36 + (List.replicate 10 (0 : Nat)).length < 4294967296) ∧
    readU32le (createWavBlob (List.replicate 10 (0 : Nat))) 4 =
      36 + (List.replicate 10 (0 : Nat)).length :=
  ⟨by decide, (wav_header_fields (List.replicate 10 0) (by decide)).2.1⟩

/-! ## PCM interpreter (`decodeAudioData` in the source)

The source builds `new Int16Array(data.buffer)` (which throws a
`RangeError` when the byte length is odd), computes
`frameCount = dataInt16.length / numChannels`, allocates per-channel
float arrays of `frameCount` entries via `ctx.createBuffer`, and fills
`channelData[i] = dataInt16[i * numChannels + channel] / 32768.0`.
JavaScript division of the sample counts is float division and
`createBuffer` converts it with `ToUint32`, so the allocated per-channel
length is the floor, which is `Nat` division; out-of-range typed-array
writes of the trailing loop iterations are discarded. `createBuffer`
also validates its arguments: the Web Audio API requires a
`NotSupportedError` when any argument is zero or outside its nominal
range, so the zero-frame-count and zero-channel calls fail in every
conforming implementation. -/


def toInt16 (lo hi : Nat) : Int :=
  let v : Nat := lo % 256 + hi % 256 * 256
  if v < 32768 then (v : Int) else (v : Int) - 65536

def toInt16List : List Nat → List Int
  | [] => []
  | [_] => []
  | lo :: hi :: rest => toInt16 lo hi :: toInt16List rest

structure ModelAudioBuffer where
  sampleRate : Nat
  channels : List (List ℚ)
deriving DecidableEq

/-- The argument validation of `ctx.createBuffer (numChannels,
frameCount, sampleRate)`: the Web Audio API requires a
`NotSupportedError` when any argument is zero or outside its nominal
range. The nominal ranges are implementation-defined, but every
conforming implementation must accept 1 to 32 channels and sample rates
from 8000 to 96000 Hz, so the model's success region is that guaranteed
baseline (which contains the source's only call, 24000 Hz mono), and a
zero frame count or zero channel count is rejected by every conforming
implementation. -/
def createBufferOk (numChannels frameCount sampleRate : Nat) : Prop :=
  1 ≤ numChannels ∧ numChannels ≤ 32 ∧ 1 ≤ frameCount ∧
    8000 ≤ sampleRate ∧ sampleRate ≤ 96000

instance (nc fc sr : Nat) : Decidable (createBufferOk nc fc sr) := by
  unfold createBufferOk
  infer_instance

def decodeAudioData (data : List Nat) (sampleRate numChannels : Nat) :
    Option ModelAudioBuffer :=
  if data.length % 2 = 0 then
    let dataInt16 := toInt16List data
    let frameCount := dataInt16.length / numChannels
    if createBufferOk numChannels frameCount sampleRate then
      some { sampleRate := sampleRate,
             channels := (List.range numChannels).map (fun channel =>
               (List.range frameCount).map (fun i =>
                 ((dataInt16.getD (i * numChannels + channel) 0 : Int) : ℚ) / 32768)) }
    else
      none
  else
    none

theorem toInt16List_length (l : List Nat) : (toInt16List l).length = l.length / 2 := by
  induction l using toInt16List.induct with
  | case1 => simp [toInt16List]
  | case2 a => simp [toInt16List]
  | case3 lo hi rest ih => simp [toInt16List, ih]; omega

theorem toInt16List_getD (l : List Nat) (k : Nat) (hk : 2 * k + 1 < l.length) :
    (toInt16List l).getD k 0 = toInt16 (l.getD (2 * k) 0) (l.getD (2 * k + 1) 0) := by
  induction l using toInt16List.induct generalizing k with
  | case1 => simp at hk
  | case2 a => simp at hk
  | case3 lo hi rest ih =>
    match k with
    | 0 => rfl
    | k + 1 =>
      have hk' : 2 * k + 1 < rest.length := by simp at hk; omega
      have e2 : 2 * (k + 1) = 2 * k + 1 + 1 := by omega
      simp only [toInt16List, List.getD_cons_succ, e2]
      exact ih k hk'

theorem decodeAudioData_eq (data : List Nat) (sr nc : Nat) (h2 : data.length % 2 = 0)
    (hok : createBufferOk nc (data.length / 2 / nc) sr) :
    decodeAudioData data sr nc = some
      { sampleRate := sr,
        channels := (List.range nc).map (fun channel =>
          (List.range (data.length / 2 / nc)).map (fun i =>
            ((toInt16List data).getD (i * nc + channel) 0 : ℚ) / 32768)) } := by
  rw [decodeAudioData, if_pos h2]
  simp only [toInt16List_length]
  rw [if_pos hok]

theorem decodeAudioData_some_inv (data : List Nat) (sr nc : Nat) (buf : ModelAudioBuffer)
    (hbuf : decodeAudioData data sr nc = some buf) :
    buf.channels = (List.range nc).map (fun channel =>
      (List.range (data.length / 2 / nc)).map (fun i =>
        ((toInt16List data).getD (i * nc + channel) 0 : ℚ) / 32768)) := by
  rw [decodeAudioData] at hbuf
  by_cases h2 : data.length % 2 = 0
  · rw [if_pos h2] at hbuf
    simp only [toInt16List_length] at hbuf
    by_cases hok : createBufferOk nc (data.length / 2 / nc) sr
    · rw [if_pos hok] at hbuf
      injection hbuf with hb
      rw [← hb]
    · rw [if_neg hok] at hbuf
      exact Option.noConfusion hbuf
  · rw [if_neg h2] at hbuf
    exact Option.noConfusion hbuf

theorem getD_map_range {α : Type} (n i : Nat) (f : Nat → α) (d : α) (hi : i < n) :
    ((List.range n).map f).getD i d = f i := by
  have h : i < ((List.range n).map f).length := by simpa using hi
  rw [List.getD_eq_getElem _ _ h]
  simp

theorem toInt16_bounds (lo hi : Nat) : -32768 ≤ toInt16 lo hi ∧ toInt16 lo hi ≤ 32767 := by
  simp only [toInt16]
  split <;> constructor <;> omega

theorem toInt16List_mem_bounds (l : List Nat) :
    ∀ z ∈ toInt16List l, -32768 ≤ z ∧ z ≤ 32767 := by
  induction l using toInt16List.induct with
  | case1 => simp [toInt16List]
  | case2 a => simp [toInt16List]
  | case3 lo hi rest ih =>
    intro z hz
    rcases List.mem_cons.mp hz with h | h
    · subst h; exact toInt16_bounds lo hi
    · exact ih z h

theorem toInt16List_getD_bounds (l : List Nat) (k : Nat) :
    -32768 ≤ (toInt16List l).getD k 0 ∧ (toInt16List l).getD k 0 ≤ 32767 := by
  rcases Nat.lt_or_ge k (toInt16List l).length with hk | hk
  · rw [List.getD_eq_getElem _ _ hk]
    exact toInt16List_mem_bounds l _ (List.getElem_mem hk)
  · rw [List.getD_eq_default _ _ hk]
    omega

theorem pcm_index_bound (data : List Nat) (nc i c : Nat) (h0 : 0 < nc)
    (h : data.length % (2 * nc) = 0)
    (hi : i < data.length / (2 * nc)) (hc : c < nc) :
    2 * (i * nc + c) + 1 < data.length := by
  have hd : (2 * nc : Nat) ∣ data.length := Nat.dvd_of_mod_eq_zero h
  have hk : 2 * nc * (data.length / (2 * nc)) = data.length := Nat.mul_div_cancel' hd
  have h1 : i * nc + c < (data.length / (2 * nc)) * nc := by
    calc i * nc + c < i * nc + nc := by omega
    _ = (i + 1) * nc := by ring
    _ ≤ (data.length / (2 * nc)) * nc := Nat.mul_le_mul_right nc hi
  have h2 : 2 * ((data.length / (2 * nc)) * nc) = data.length := by
    rw [show 2 * ((data.length / (2 * nc)) * nc) = 2 * nc * (data.length / (2 * nc)) from by
      ring, hk]
  omega

/-- Counterexample to C3 as stated: the empty buffer is a multiple of
`2 * numChannels`, yet the source does not output an empty audio buffer
for it, because `ctx.createBuffer (1, 0, 24000)` throws a
`NotSupportedError` at frame count 0. -/
theorem pcm_empty_buffer_errors : decodeAudioData [] 24000 1 = none := by
  simp [decodeAudioData, createBufferOk, toInt16List]

/-- C3 amended: for buffers holding at least one full frame, with the
channel count and sample rate in the ranges every conforming
implementation accepts, the decode succeeds and yields, for each
channel `c` and frame `i`, the sample `int16LE[i * nc + c] / 32768`
with frame count `length / (2 * nc)`. -/
theorem pcm_decode_samples (data : List Nat) (sr nc : Nat) (h0 : 0 < nc)
    (h32 : nc ≤ 32) (h : data.length % (2 * nc) = 0) (hpos : 2 * nc ≤ data.length)
    (hsr1 : 8000 ≤ sr) (hsr2 : sr ≤ 96000) :
    ∃ buf, decodeAudioData data sr nc = some buf ∧
      buf.sampleRate = sr ∧
      buf.channels.length = nc ∧
      ∀ c, c < nc →
        (buf.channels.getD c []).length = data.length / (2 * nc) ∧
        ∀ i, i < data.length / (2 * nc) →
          (buf.channels.getD c []).getD i 0 =
            ((toInt16 (data.getD (2 * (i * nc + c)) 0)
              (data.getD (2 * (i * nc + c) + 1) 0) : Int) : ℚ) / 32768 := by
  have h2 : data.length % 2 = 0 := by
    rcases Nat.dvd_of_mod_eq_zero h with ⟨k, hk⟩
    have : (2 : Nat) ∣ data.length := ⟨nc * k, by rw [hk]; ring⟩
    omega
  have hdd : data.length / 2 / nc = data.length / (2 * nc) := Nat.div_div_eq_div_mul _ _ _
  have hfc : 1 ≤ data.length / 2 / nc := by
    rw [hdd, Nat.le_div_iff_mul_le (by omega : 0 < 2 * nc)]
    omega
  refine ⟨_, decodeAudioData_eq data sr nc h2 ⟨h0, h32, hfc, hsr1, hsr2⟩, rfl, by simp, ?_⟩
  intro c hc
  rw [getD_map_range _ _ _ _ hc, hdd]
  refine ⟨by simp, ?_⟩
  intro i hi
  rw [getD_map_range _ _ _ _ hi]
  rw [toInt16List_getD data (i * nc + c) (pcm_index_bound data nc i c h0 h hi hc)]

theorem pcm_decode_samples_witness :
    ((0 : Nat) < 1 ∧ (1 : Nat) ≤ 32 ∧ ([0, 128] : List Nat).length % (2 * 1) = 0 ∧
      2 * 1 ≤ ([0, 128] : List Nat).length ∧ (8000 : Nat) ≤ 24000 ∧ (24000 : Nat) ≤ 96000) ∧
    (∃ buf, decodeAudioData [0, 128] 24000 1 = some buf ∧
      buf.sampleRate = 24000 ∧
      buf.channels.length = 1 ∧
      ∀ c, c < 1 →
        (buf.channels.getD c []).length = ([0, 128] : List Nat).length / (2 * 1) ∧
        ∀ i, i < ([0, 128] : List Nat).length / (2 * 1) →
          (buf.channels.getD c []).getD i 0 =
            ((toInt16 (([0, 128] : List Nat).getD (2 * (i * 1 + c)) 0)
              (([0, 128] : List Nat).getD (2 * (i * 1 + c) + 1) 0) : Int) : ℚ) / 32768) :=
  ⟨⟨by decide, by decide, by decide, by decide, by decide, by decide⟩,
    pcm_decode_samples [0, 128] 24000 1 (by decide) (by decide) (by decide) (by decide)
      (by decide) (by decide)⟩


theorem pcm_sample_range (data : List Nat) (sr nc : Nat) (h0 : 0 < nc)
    (h : data.length % (2 * nc) = 0) :
    ∀ buf, decodeAudioData data sr nc = some buf →
      ∀ ch ∈ buf.channels, ∀ q ∈ ch,
        (-1 ≤ q ∧ q < 1) ∧
        ∃ v : ℤ, q = (v : ℚ) / 32768 ∧ -32768 ≤ v ∧ v ≤ 32767 ∧
          (q = -1 ↔ v = -32768) := by
  intro buf hbuf ch hch q hq
  rw [decodeAudioData_some_inv data sr nc buf hbuf] at hch
  rcases List.mem_map.mp hch with ⟨c, _, rfl⟩
  rcases List.mem_map.mp hq with ⟨i, _, rfl⟩
  set v := (toInt16List data).getD (i * nc + c) 0 with hv
  have hb := toInt16List_getD_bounds data (i * nc + c)
  rw [← hv] at hb
  have h32 : (0 : ℚ) < 32768 := by norm_num
  have hle : (-1 : ℚ) ≤ (v : ℚ) / 32768 := by
    rw [le_div_iff₀ h32]
    have : (-32768 : ℚ) ≤ (v : ℚ) := by exact_mod_cast hb.1
    linarith
  have hlt : (v : ℚ) / 32768 < 1 := by
    rw [div_lt_one h32]
    have : (v : ℚ) ≤ 32767 := by exact_mod_cast hb.2
    linarith
  refine ⟨⟨hle, hlt⟩, v, rfl, hb.1, hb.2, ?_⟩
  constructor
  · intro hq1
    have : (v : ℚ) = -32768 := by
      field_simp at hq1
      linarith
    exact_mod_cast this
  · intro hv1
    rw [hv1]
    norm_num

theorem pcm_sample_range_witness :
    ((0 : Nat) < 1 ∧ ([0, 128] : List Nat).length % (2 * 1) = 0 ∧
      (decodeAudioData [0, 128] 24000 1).isSome = true) ∧
    (∀ buf, decodeAudioData [0, 128] 24000 1 = some buf →
      ∀ ch ∈ buf.channels, ∀ q ∈ ch,
        (-1 ≤ q ∧ q < 1) ∧
        ∃ v : ℤ, q = (v : ℚ) / 32768 ∧ -32768 ≤ v ∧ v ≤ 32767 ∧
          (q = -1 ↔ v = -32768)) :=
  ⟨⟨by decide, by decide, by decide⟩,
    pcm_sample_range [0, 128] 24000 1 (by decide) (by decide)⟩

theorem pcm_truncation_counterexample : decodeAudioData [0, 0, 0] 24000 1 = none := by
  simp [decodeAudioData]

theorem pcm_nonmultiple_behavior (data : List Nat) (sr nc : Nat) (h0 : 0 < nc)
    (h : data.length % (2 * nc) ≠ 0) :
    (data.length % 2 ≠ 0 → decodeAudioData data sr nc = none) ∧
    (data.length % 2 = 0 → data.length / 2 / nc = 0 →
      decodeAudioData data sr nc = none) ∧
    (data.length % 2 = 0 → 1 ≤ data.length / 2 / nc → nc ≤ 32 →
      8000 ≤ sr → sr ≤ 96000 →
      ∃ buf, decodeAudioData data sr nc = some buf ∧
        buf.channels.length = nc ∧
        ∀ ch ∈ buf.channels, ch.length = data.length / 2 / nc) := by
  refine ⟨?_, ?_, ?_⟩
  · intro hodd
    rw [decodeAudioData, if_neg hodd]
  · intro h2 hfc
    rw [decodeAudioData, if_pos h2]
    simp only [toInt16List_length]
    rw [if_neg]
    simp only [createBufferOk]
    omega
  · intro h2 hfc h32 hsr1 hsr2
    refine ⟨_, decodeAudioData_eq data sr nc h2 ⟨h0, h32, hfc, hsr1, hsr2⟩, by simp, ?_⟩
    intro ch hch
    rcases List.mem_map.mp hch with ⟨c, _, rfl⟩
    simp

theorem pcm_nonmultiple_behavior_witness :
    ((0 : Nat) < 1 ∧ ([0, 0, 0] : List Nat).length % (2 * 1) ≠ 0 ∧
      ([0, 0, 0] : List Nat).length % 2 ≠ 0) ∧
    decodeAudioData [0, 0, 0] 24000 1 = none :=
  ⟨⟨by decide, by decide, by decide⟩,
    (pcm_nonmultiple_behavior [0, 0, 0] 24000 1 (by decide) (by decide)).1 (by decide)⟩

/-! ## Base64 decoder (`decode` in the source)

The source's `decode` calls the browser `atob` and copies the code units
of the resulting binary string into a `Uint8Array`; each code unit is a
value below 256, so the copy is the identity on the byte sequence and
the model is `atob` itself. `base64Encode` is the standard encoder the
spec's round-trip property quantifies over. -/


/-- Sextet value of a base64 alphabet character, `none` for any other
character. -/
def b64Index (c : Char) : Option Nat :=
  let n := c.toNat
  if 65 ≤ n ∧ n ≤ 90 then some (n - 65)
  else if 97 ≤ n ∧ n ≤ 122 then some (n - 71)
  else if 48 ≤ n ∧ n ≤ 57 then some (n + 4)
  else if n = 43 then some 62
  else if n = 47 then some 63
  else none

def b64Alphabet : List Char :=
  "ABCDEFGHIJKLMNOPQRSTUVWXYZabcdefghijklmnopqrstuvwxyz0123456789+/".data

def b64Char (n : Nat) : Char := b64Alphabet.getD n 'A'

def isB64Ws (c : Char) : Bool :=
  c.toNat = 9 || c.toNat = 10 || c.toNat = 12 || c.toNat = 13 || c.toNat = 32

def stripWs (l : List Char) : List Char := l.filter (fun c => !(isB64Ws c))

def dropEq1 (l : List Char) : List Char :=
  match l.getLast? with
  | some c => if c = '=' then l.dropLast else l
  | none => l

def stripPad (l : List Char) : List Char :=
  if l.length % 4 = 0 then dropEq1 (dropEq1 l) else l

def mapB64 : List Char → Option (List Nat)
  | [] => some []
  | c :: cs =>
    match b64Index c, mapB64 cs with
    | some v, some vs => some (v :: vs)
    | _, _ => none

def sextetsToBytes : List Nat → List Nat
  | [] => []
  | [_] => []
  | [a, b] => [a * 4 + b / 16]
  | [a, b, c] => [a * 4 + b / 16, b % 16 * 16 + c / 4]
  | a :: b :: c :: d :: rest =>
    (a * 4 + b / 16) :: (b % 16 * 16 + c / 4) :: (c % 4 * 64 + d) :: sextetsToBytes rest

/-- Model of the browser `atob` (WHATWG forgiving-base64 decode): strip
ASCII whitespace, strip up to two trailing padding characters when the
length is a multiple of four, fail when the remaining length is 1 mod 4
or a character is outside the alphabet, then emit 3 bytes per sextet
quadruple, discarding leftover bits of a trailing group of 2 or 3. -/
def atob (s : String) : Option (List Nat) :=
  let l := stripPad (stripWs s.data)
  if l.length % 4 = 1 then none
  else
    match mapB64 l with
    | none => none
    | some sx => some (sextetsToBytes sx)

/-- Model of `decode`: the code-unit values of the binary string `atob`
returns, copied one byte per character (each is below 256, so the copy
is the identity on the byte list). -/
def decode (base64 : String) : Option (List Nat) := atob base64

/-- Standard base64 sextet stream of a byte list, 3 bytes to 4 sextets,
with the 1- and 2-byte tails zero-filled. -/
def encodeSextets : List Nat → List Nat
  | [] => []
  | [a] => [a / 4, a % 4 * 16]
  | [a, b] => [a / 4, a % 4 * 16 + b / 16, b % 16 * 4]
  | a :: b :: c :: rest =>
    (a / 4) :: (a % 4 * 16 + b / 16) :: (b % 16 * 4 + c / 64) :: (c % 64) :: encodeSextets rest

def b64PadFor (n : Nat) : List Char :=
  if n % 3 = 1 then ['=', '='] else if n % 3 = 2 then ['='] else []

/-- Standard base64 encoding of a byte list, with `=` padding. -/
def base64Encode (x : List Nat) : String :=
  ⟨(encodeSextets x).map b64Char ++ b64PadFor x.length⟩



theorem b64Index_b64Char : ∀ n, n < 64 → b64Index (b64Char n) = some n := by decide

theorem b64Char_ne_pad (n : Nat) : b64Char n ≠ '=' := by
  rcases Nat.lt_or_ge n 64 with h | h
  · revert n
    decide
  · rw [b64Char, List.getD_eq_default]
    · decide
    · simpa [b64Alphabet] using h

theorem b64Char_not_ws (n : Nat) : isB64Ws (b64Char n) = false := by
  rcases Nat.lt_or_ge n 64 with h | h
  · revert n
    decide
  · rw [b64Char, List.getD_eq_default]
    · decide
    · simpa [b64Alphabet] using h

theorem pad_mem : ∀ (n : Nat) (c : Char), c ∈ b64PadFor n → c = '=' := by
  intro n c h
  rw [b64PadFor] at h
  split at h
  · simpa using h
  · split at h
    · simpa using h
    · simp at h

theorem stripWs_encode (x : List Nat) :
    stripWs ((encodeSextets x).map b64Char ++ b64PadFor x.length) =
      (encodeSextets x).map b64Char ++ b64PadFor x.length := by
  rw [stripWs, List.filter_eq_self]
  intro c hc
  rcases List.mem_append.mp hc with h | h
  · rcases List.mem_map.mp h with ⟨v, _, rfl⟩
    simp [b64Char_not_ws]
  · have hc' : c = '=' := pad_mem _ _ h
    subst hc'
    decide

theorem encodeSextets_lt64 (x : List Nat) (hx : ∀ b ∈ x, b < 256) :
    ∀ v ∈ encodeSextets x, v < 64 := by
  induction x using encodeSextets.induct with
  | case1 => simp [encodeSextets]
  | case2 a =>
    have ha := hx a (by simp)
    intro v hv
    rw [encodeSextets] at hv
    rcases List.mem_cons.mp hv with rfl | hv
    · omega
    · rcases List.mem_cons.mp hv with rfl | hv
      · omega
      · simp at hv
  | case3 a b =>
    have ha := hx a (by simp)
    have hb := hx b (by simp)
    intro v hv
    rw [encodeSextets] at hv
    rcases List.mem_cons.mp hv with rfl | hv
    · omega
    · rcases List.mem_cons.mp hv with rfl | hv
      · omega
      · rcases List.mem_cons.mp hv with rfl | hv
        · omega
        · simp at hv
  | case4 a b c rest ih =>
    have ha := hx a (by simp)
    have hb := hx b (by simp)
    have hc := hx c (by simp)
    intro v hv
    rw [encodeSextets] at hv
    rcases List.mem_cons.mp hv with rfl | hv
    · omega
    · rcases List.mem_cons.mp hv with rfl | hv
      · omega
      · rcases List.mem_cons.mp hv with rfl | hv
        · omega
        · rcases List.mem_cons.mp hv with rfl | hv
          · omega
          · exact ih (fun y hy => hx y (by simp [hy])) v hv

theorem mapB64_map_b64Char (sx : List Nat) (hs : ∀ v ∈ sx, v < 64) :
    mapB64 (sx.map b64Char) = some sx := by
  induction sx with
  | nil => rfl
  | cons v vs ih =>
    have hv := hs v (by simp)
    rw [List.map_cons, mapB64, b64Index_b64Char v hv,
      ih (fun y hy => hs y (by simp [hy]))]

theorem dropEq1_concat_pad (l : List Char) : dropEq1 (l ++ ['=']) = l := by
  rw [dropEq1]
  rw [List.getLast?_concat]
  simp

theorem dropEq1_no_pad (l : List Char) (hl : ∀ c ∈ l, c ≠ '=') : dropEq1 l = l := by
  rw [dropEq1]
  match hg : l.getLast? with
  | none => rfl
  | some c =>
    have hc : c ∈ l := by
      rcases List.mem_getLast?_eq_getLast (show c ∈ l.getLast? from hg) with ⟨hne, rfl⟩
      exact List.getLast_mem hne
    show (if c = '=' then l.dropLast else l) = l
    rw [if_neg (hl c hc)]

theorem encodeSextets_length (x : List Nat) :
    (encodeSextets x).length =
      4 * (x.length / 3) + (if x.length % 3 = 0 then 0 else x.length % 3 + 1) := by
  induction x using encodeSextets.induct with
  | case1 => rfl
  | case2 a => simp [encodeSextets]
  | case3 a b => simp [encodeSextets]
  | case4 a b c rest ih =>
    rw [encodeSextets]
    simp only [List.length_cons, ih, List.length_cons]
    have h3 : (rest.length + 1 + 1 + 1) / 3 = rest.length / 3 + 1 := by omega
    have h4 : (rest.length + 1 + 1 + 1) % 3 = rest.length % 3 := by omega
    rw [h3, h4]
    split <;> omega

theorem stripPad_encode (x : List Nat) :
    stripPad ((encodeSextets x).map b64Char ++ b64PadFor x.length) =
      (encodeSextets x).map b64Char := by
  have hne : ∀ c ∈ (encodeSextets x).map b64Char, c ≠ '=' := by
    intro c hc
    rcases List.mem_map.mp hc with ⟨v, _, rfl⟩
    exact b64Char_ne_pad v
  have hlen : ((encodeSextets x).map b64Char).length =
      4 * (x.length / 3) + (if x.length % 3 = 0 then 0 else x.length % 3 + 1) := by
    rw [List.length_map, encodeSextets_length]
  by_cases h0 : x.length % 3 = 0
  · rw [b64PadFor, if_neg (by omega), if_neg (by omega), List.append_nil, stripPad,
      if_pos (by rw [hlen, if_pos h0]; omega),
      dropEq1_no_pad _ hne, dropEq1_no_pad _ hne]
  · by_cases h1 : x.length % 3 = 1
    · have hlen1 : ((encodeSextets x).map b64Char).length = 4 * (x.length / 3) + 2 := by
        rw [hlen, if_neg h0, h1]
      rw [b64PadFor, if_pos h1, stripPad,
        if_pos (by rw [List.length_append, hlen1]; simp; omega),
        show (encodeSextets x).map b64Char ++ ['=', '='] =
          ((encodeSextets x).map b64Char ++ ['=']) ++ ['='] by simp,
        dropEq1_concat_pad, dropEq1_concat_pad]
    · have h2 : x.length % 3 = 2 := by omega
      have hlen2 : ((encodeSextets x).map b64Char).length = 4 * (x.length / 3) + 3 := by
        rw [hlen, if_neg h0, h2]
      rw [b64PadFor, if_neg h1, if_pos h2, stripPad,
        if_pos (by rw [List.length_append, hlen2]; simp; omega),
        dropEq1_concat_pad, dropEq1_no_pad _ hne]

theorem sextets_roundtrip (x : List Nat) (hx : ∀ b ∈ x, b < 256) :
    sextetsToBytes (encodeSextets x) = x := by
  induction x using encodeSextets.induct with
  | case1 => rfl
  | case2 a =>
    have ha := hx a (by simp)
    simp only [encodeSextets, sextetsToBytes, List.cons.injEq, and_true]
    omega
  | case3 a b =>
    have ha := hx a (by simp)
    have hb := hx b (by simp)
    simp only [encodeSextets, sextetsToBytes, List.cons.injEq, and_true]
    constructor <;> omega
  | case4 a b c rest ih =>
    have ha := hx a (by simp)
    have hb := hx b (by simp)
    have hc := hx c (by simp)
    simp only [encodeSextets, sextetsToBytes, List.cons.injEq]
    exact ⟨by omega, by omega, by omega, ih (fun y hy => hx y (by simp [hy]))⟩

theorem decode_base64Encode (x : List Nat) (hx : ∀ b ∈ x, b < 256) :
    decode (base64Encode x) = some x := by
  have hdata : (base64Encode x).data =
      (encodeSextets x).map b64Char ++ b64PadFor x.length := rfl
  simp only [decode, atob]
  rw [hdata, stripWs_encode, stripPad_encode]
  have hmod : ((encodeSextets x).map b64Char).length % 4 ≠ 1 := by
    rw [List.length_map, encodeSextets_length]
    split <;> omega
  rw [if_neg hmod, mapB64_map_b64Char _ (encodeSextets_lt64 x hx)]
  show some (sextetsToBytes (encodeSextets x)) = some x
  rw [sextets_roundtrip x hx]

theorem sextetsToBytes_length (l : List Nat) :
    (sextetsToBytes l).length = 3 * l.length / 4 := by
  induction l using sextetsToBytes.induct with
  | case1 => rfl
  | case2 a => simp [sextetsToBytes]
  | case3 a b => simp [sextetsToBytes]
  | case4 a b c => simp [sextetsToBytes]
  | case5 a b c d rest ih =>
    simp only [sextetsToBytes, List.length_cons, ih]
    omega

theorem mapB64_length (l : List Char) (sx : List Nat) (h : mapB64 l = some sx) :
    sx.length = l.length := by
  induction l generalizing sx with
  | nil =>
    rw [mapB64] at h
    cases h
    rfl
  | cons c cs ih =>
    rw [mapB64] at h
    match hb : b64Index c, hm : mapB64 cs with
    | some v, some vs =>
      rw [hb, hm] at h
      cases h
      simp [ih vs hm]
    | some v, none => rw [hb, hm] at h; cases h
    | none, some vs => rw [hb, hm] at h; cases h
    | none, none => rw [hb, hm] at h; cases h

theorem decode_length (s : String) (bs : List Nat) (h : decode s = some bs) :
    bs.length = 3 * (stripPad (stripWs s.data)).length / 4 := by
  simp only [decode, atob] at h
  by_cases hm : (stripPad (stripWs s.data)).length % 4 = 1
  · rw [if_pos hm] at h
    cases h
  · rw [if_neg hm] at h
    match hmm : mapB64 (stripPad (stripWs s.data)) with
    | none => rw [hmm] at h; cases h
    | some sx =>
      rw [hmm] at h
      have hb : sextetsToBytes sx = bs := by
        cases h
        rfl
      rw [← hb, sextetsToBytes_length, mapB64_length _ _ hmm]

/-- A string the `atob` algorithm accepts: after whitespace removal and
padding stripping, the length is not 1 mod 4 and every character is in
the base64 alphabet. -/
def validBase64 (s : String) : Bool :=
  decide ((stripPad (stripWs s.data)).length % 4 ≠ 1) &&
    (stripPad (stripWs s.data)).all (fun c => (b64Index c).isSome)

theorem mapB64_isSome (l : List Char) :
    (mapB64 l).isSome = l.all (fun c => (b64Index c).isSome) := by
  induction l with
  | nil => rfl
  | cons c cs ih =>
    rw [mapB64, List.all_cons, ← ih]
    cases hb : b64Index c <;> cases hm : mapB64 cs <;> simp

/-- C6: decoding an encoded byte sequence returns it unchanged, and any
successful decode yields exactly the decoded byte count of the input
(three bytes per four sextet characters, rounded down). -/
theorem base64_roundtrip (x : List Nat) (hx : ∀ b ∈ x, b < 256) :
    decode (base64Encode x) = some x ∧
    ∀ (s : String) (bs : List Nat), decode s = some bs →
      bs.length = 3 * (stripPad (stripWs s.data)).length / 4 :=
  ⟨decode_base64Encode x hx, fun s bs h => decode_length s bs h⟩

theorem base64_roundtrip_witness :
    (∀ b ∈ ([77, 97, 110] : List Nat), b < 256) ∧
    decode (base64Encode [77, 97, 110]) = some [77, 97, 110] :=
  ⟨by decide, (base64_roundtrip [77, 97, 110] (by decide)).1⟩

/-- C7: an input that is not valid base64 makes `decode` fail (return
`none`, the model of the `InvalidCharacterError` thrown by `atob`)
rather than produce a byte buffer. -/
theorem base64_invalid_fails (s : String) (h : validBase64 s = false) :
    decode s = none := by
  simp only [decode, atob]
  by_cases hm : (stripPad (stripWs s.data)).length % 4 = 1
  · rw [if_pos hm]
  · rw [if_neg hm]
    have hall : (stripPad (stripWs s.data)).all (fun c => (b64Index c).isSome) = false := by
      rw [validBase64] at h
      rcases Bool.and_eq_false_iff.mp h with h1 | h1
      · exact absurd (by simpa using h1) (by simpa using hm)
      · exact h1
    have hsome : (mapB64 (stripPad (stripWs s.data))).isSome = false := by
      rw [mapB64_isSome, hall]
    match hmm : mapB64 (stripPad (stripWs s.data)) with
    | none => rfl
    | some sx => rw [hmm] at hsome; cases hsome

theorem base64_invalid_fails_witness :
    validBase64 "ab!c" = false ∧ decode "ab!c" = none :=
  ⟨by decide, base64_invalid_fails "ab!c" (by decide)⟩

/-! ## Speech service (`generateSpeech` and `playAudio` in the source)

`generateSpeech` guards on `process.env.API_KEY` before constructing the
client, then inspects the remote response: the optional chain
`candidates?.[0]?.content?.parts?.[0]?.inlineData?.data`, then
`response.text`, then `response.promptFeedback?.blockReason`, throwing a
distinct error message in each failure case. JavaScript truthiness makes
both `undefined` and the empty string falsy, modelled by `isTruthy` on
`Option String`. `playAudio` throws before any decoding when its
`AudioContext` argument is null. -/

structure InlineData where
  data : Option String

structure GenPart where
  text : Option String
  inlineData : Option InlineData

structure GenContent where
  parts : List GenPart

structure Candidate where
  content : Option GenContent

structure PromptFeedback where
  blockReason : Option String

/-- The parts of the remote response the source reads: the candidate
list, the prompt feedback, and the SDK's derived `text` accessor. -/
structure GenResponse where
  candidates : Option (List Candidate)
  promptFeedback : Option PromptFeedback
  text : Option String

/-- JavaScript truthiness of an optional string: `undefined` and `""`
are falsy, everything else truthy. -/
def isTruthy : Option String → Bool
  | none => false
  | some s => !s.isEmpty

/-- The optional chain
`response.candidates?.[0]?.content?.parts?.[0]?.inlineData?.data`. -/
def inlineAudioOf (r : GenResponse) : Option String :=
  match r.candidates with
  | none => none
  | some cs =>
    match cs.head? with
    | none => none
    | some c =>
      match c.content with
      | none => none
      | some ct =>
        match ct.parts.head? with
        | none => none
        | some p =>
          match p.inlineData with
          | none => none
          | some d => d.data

/-- The optional chain `response.promptFeedback?.blockReason`. -/
def blockReasonOf (r : GenResponse) : Option String :=
  match r.promptFeedback with
  | none => none
  | some pf => pf.blockReason

/-- Model of `generateSpeech`: the API-key guard, then the response
handling; the remote call itself is the environment, so the response is
a parameter. Errors are the thrown `Error` messages. -/
def generateSpeech (apiKey : Option String) (response : GenResponse) :
    Except String String :=
  if !isTruthy apiKey then
    Except.error "API_KEY environment variable not set"
  else if isTruthy (inlineAudioOf response) then
    Except.ok ((inlineAudioOf response).getD "")
  else if isTruthy response.text then
    Except.error ("API returned text instead of audio: " ++ response.text.getD "")
  else if isTruthy (blockReasonOf response) then
    Except.error ("Request was blocked: " ++ (blockReasonOf response).getD "")
  else
    Except.error "No audio data received from API. The response was empty or malformed."

inductive PlayError
  | deviceUnavailable
  | decodeFailed
  | pcmFailed
deriving DecidableEq

/-- Model of `playAudio`: the null-context guard, then base64 decoding,
then PCM interpretation at 24000 Hz mono; the context's suspended flag
only triggers a resume and does not change the result. -/
def playAudio (base64Audio : String) (audioContext : Option Bool) :
    Except PlayError ModelAudioBuffer :=
  match audioContext with
  | none => Except.error PlayError.deviceUnavailable
  | some _ =>
    match decode base64Audio with
    | none => Except.error PlayError.decodeFailed
    | some bytes =>
      match decodeAudioData bytes 24000 1 with
      | none => Except.error PlayError.pcmFailed
      | some buf => Except.ok buf

/-- C8: with a null audio context, `playAudio` fails with the device
error for every input string, even one that is not decodable base64, so
the failure happens before any decoding or scheduling. -/
theorem play_null_context_fails (base64Audio : String) :
    playAudio base64Audio none = Except.error PlayError.deviceUnavailable := rfl

/-- C10: with `API_KEY` unset, `generateSpeech` fails with the exact
guard message for every response, so the failure is independent of any
remote interaction. -/
theorem api_key_guard (response : GenResponse) :
    generateSpeech none response =
      Except.error "API_KEY environment variable not set" := rfl

/-- Containment of the characters of `sub` as a contiguous run inside
`m`. -/
def strContains (m sub : String) : Prop :=
  ∃ a b : List Char, m.data = a ++ sub.data ++ b

/-- Executable check for `strContains`. -/
def hasSub (l sub : List Char) : Bool :=
  (List.range (l.length + 1)).any (fun i => sub.isPrefixOf (l.drop i))

theorem isPrefixOf_append (s b : List Char) : s.isPrefixOf (s ++ b) = true := by
  induction s with
  | nil => simp [List.isPrefixOf]
  | cons c cs ih => simpa [List.isPrefixOf] using ih

theorem strContains_hasSub (l sub : List Char)
    (h : ∃ a b : List Char, l = a ++ sub ++ b) : hasSub l sub = true := by
  rcases h with ⟨a, b, rfl⟩
  rw [hasSub, List.any_eq_true]
  refine ⟨a.length, List.mem_range.mpr (by simp; omega), ?_⟩
  rw [List.append_assoc, List.drop_left]
  exact isPrefixOf_append sub b

theorem strData_append (s t : String) : (s ++ t).data = s.data ++ t.data := by
  cases s
  cases t
  rfl

/-- The response of the C9 counterexample: no inline audio, a populated
block reason, and a populated text field. -/
def blockedAndTextResponse : GenResponse :=
  { candidates := none,
    promptFeedback := some { blockReason := some "SAFETY" },
    text := some "oops" }

/-- Counterexample to C9 as stated: this response has no inline audio
data and a populated block-reason field, yet `generateSpeech` surfaces
the text error, whose message does not contain the block reason,
because the source checks `response.text` first. -/
theorem blocked_reason_shadowed_by_text :
    inlineAudioOf blockedAndTextResponse = none ∧
    blockReasonOf blockedAndTextResponse = some "SAFETY" ∧
    generateSpeech (some "key") blockedAndTextResponse =
      Except.error "API returned text instead of audio: oops" ∧
    ¬ strContains "API returned text instead of audio: oops" "SAFETY" := by
  refine ⟨rfl, rfl, rfl, ?_⟩
  intro h
  have hh : hasSub ("API returned text instead of audio: oops").data ("SAFETY").data = true :=
    strContains_hasSub _ _ h
  have : hasSub ("API returned text instead of audio: oops").data ("SAFETY").data = false := by
    decide
  rw [this] at hh
  cases hh

/-- C9 amended: when the response has no truthy inline audio AND no
truthy text field, a populated block reason is surfaced as the blocked
error, whose message contains the reason and differs from the
empty-response message and from every text-error message. -/
theorem blocked_reason_surfaced (apiKey : Option String) (r : GenResponse) (reason : String)
    (hkey : isTruthy apiKey = true)
    (ha : isTruthy (inlineAudioOf r) = false)
    (ht : isTruthy r.text = false)
    (hb : blockReasonOf r = some reason)
    (htr : isTruthy (blockReasonOf r) = true) :
    generateSpeech apiKey r = Except.error ("Request was blocked: " ++ reason) ∧
    strContains ("Request was blocked: " ++ reason) reason ∧
    ("Request was blocked: " ++ reason) ≠
      "No audio data received from API. The response was empty or malformed." ∧
    ∀ t : String, ("Request was blocked: " ++ reason) ≠
      ("API returned text instead of audio: " ++ t) := by
  refine ⟨?_, ?_, ?_, ?_⟩
  · have htr' : isTruthy (some reason) = true := by rw [← hb]; exact htr
    simp only [generateSpeech, hkey, ha, ht, hb, htr', Bool.not_true, if_false, if_true]
    simp
  · refine ⟨("Request was blocked: ").data, [], ?_⟩
    rw [strData_append]
    simp
  · intro h
    have h2 := congrArg String.data h
    rw [strData_append] at h2
    have h3 : some 'R' = some 'N' := congrArg List.head? h2
    exact absurd (Option.some.inj h3) (by decide)
  · intro t h
    have h2 := congrArg String.data h
    rw [strData_append, strData_append] at h2
    have h3 : some 'R' = some 'A' := congrArg List.head? h2
    exact absurd (Option.some.inj h3) (by decide)

/-- A response with only a block reason populated. -/
def blockedOnlyResponse : GenResponse :=
  { candidates := none,
    promptFeedback := some { blockReason := some "SAFETY" },
    text := none }

theorem blocked_reason_surfaced_witness :
    (isTruthy (some "key") = true ∧
     isTruthy (inlineAudioOf blockedOnlyResponse) = false ∧
     isTruthy blockedOnlyResponse.text = false ∧
     blockReasonOf blockedOnlyResponse = some "SAFETY" ∧
     isTruthy (blockReasonOf blockedOnlyResponse) = true) ∧
    generateSpeech (some "key") blockedOnlyResponse =
      Except.error ("Request was blocked: " ++ "SAFETY") :=
  ⟨⟨rfl, rfl, rfl, rfl, rfl⟩,
    (blocked_reason_surfaced (some "key") blockedOnlyResponse "SAFETY"
      rfl rfl rfl rfl rfl).1⟩

end TTS
